import Mathlib

/-!
Verification of the request dispatch and authentication-injection layer of the
pocketbase client library (`src/pocketbase/client.py`), as a shallow embedding.

Python dictionaries are embedded as association lists (keeping insertion
order, which Python dicts also guarantee).  The external HTTP engine (httpx)
is an oracle: an `EngineOutcome` (or a function producing one from the
composed request) provided as a parameter.  Heap effects visible to the
caller — the in-place mutation of a caller-supplied headers dict, and the
(absence of) mutation of the auth store — are made explicit in the result of
`Client._send`.
-/

namespace PocketBase

/-- A JSON value, for response payloads and plain body fields. -/
inductive Json where
  | null
  | bool (b : Bool)
  | num (n : Int)
  | str (s : String)
  | arr (xs : List Json)
  | obj (fields : List (String × Json))

/-- Headers: a Python `dict[str, str]` as an ordered association list. -/
abbrev Headers := List (String × String)

/-- Python `k in d` on a headers dict. -/
def hContains (h : Headers) (k : String) : Bool :=
  h.any (fun p => p.1 == k)

/-- Python `d[k]` lookup (first matching key; keys are unique in a dict). -/
def hLookup : Headers → String → Option String
  | [], _ => none
  | p :: rest, k => if p.1 == k then some p.2 else hLookup rest k

/-- Python `d.update({k: v})`: replace the value in place if `k` is present,
else append the new entry (dicts keep insertion order). -/
def hInsert (h : Headers) (k v : String) : Headers :=
  if hContains h k then h.map (fun p => if p.1 == k then (k, v) else p)
  else h ++ [(k, v)]

/-- One file part of a multipart request: field key, file name, raw bytes. -/
structure FilePart where
  field : String
  filename : String
  content : List Nat
deriving DecidableEq, Repr

/-- Modelled from the spec: `FileUpload` "wraps raw bytes/stream + target
field name; produced by callers, consumed only by the Dispatcher's
encoding-selection step" (`pocketbase/models`, not under `src/`). -/
structure FileUpload where
  filename : String
  content : List Nat
deriving DecidableEq, Repr

/-- `FileUpload.get(key)` yields the file parts of this upload for the given
body field key (the dispatcher concatenates these into the `files` tuple). -/
def FileUpload.get (f : FileUpload) (key : String) : List FilePart :=
  [⟨key, f.filename, f.content⟩]

/-- A value of a request body mapping: either a plain JSON-serializable value
or a `FileUpload`. -/
inductive BodyEntry where
  | plain (v : Json)
  | file (f : FileUpload)

/-- A request body that is a mapping (Python `dict`). -/
abbrev Body := List (String × BodyEntry)

/-- The `req_config` dict handed to `Client._send`: optional `method`,
`params`, `headers` and `body` keys (`none` models an absent key). -/
structure RequestConfig where
  method : Option String := none
  params : Option (List (String × String)) := none
  headers : Option Headers := none
  body : Option Body := none

/-- The auth store as the dispatcher sees it: a token and an identity record
(opaque here; only the token is read by `_send`). -/
structure AuthStore where
  token : Option String := none
  record : Option String := none

/-- Python truthiness of `self.auth_store.token`: falsy when the token is
`None` or the empty string. -/
def tokTruthy : Option String → Bool
  | none => false
  | some s => s != ""

/-- The `Client` state used by the dispatch layer: constructor-set
configuration plus the lazily grown `record_service` cache.  A cached
`RecordService` instance is represented by its allocation id (a `Nat` that is
fresh at each construction), which models Python object identity; `nextAlloc`
is the next fresh id. -/
structure Client where
  base_url : String := "/"
  lang : String := "en-US"
  auth_store : AuthStore := {}
  timeout : Nat := 120
  auto_snake_case : Bool := true
  record_service : List (String × Nat) := []
  nextAlloc : Nat := 0

/-- Python `s.endswith(suffix)`, rendered over the character list. -/
def pyEndsWith (s suffix : String) : Bool :=
  suffix.data.isSuffixOf s.data

/-- Python `s.startswith(pre)`, rendered over the character list. -/
def pyStartsWith (s pre : String) : Bool :=
  pre.data.isPrefixOf s.data

/-- Python `s[1:]`: drop the first character. -/
def pyDropOne (s : String) : String :=
  String.mk (s.data.drop 1)

/-- `Client.build_url`: append `/` to the base unless it already ends with
one, strip one leading `/` from the path, and concatenate. -/
def build_url (base_url path : String) : String :=
  let url := if pyEndsWith base_url "/" then base_url else base_url ++ "/"
  let path := if pyStartsWith path "/" then pyDropOne path else path
  url ++ path

/-- The headers finally passed to the HTTP engine: inject
`Authorization: <token>` when the token is truthy and the caller supplied no
headers dict or one without an `"Authorization"` key; otherwise pass the
caller's headers (or `None`) through. -/
def dispatchHeaders (tok : Option String) (hdrs : Option Headers) : Option Headers :=
  if tokTruthy tok && (hdrs.isNone || !(hContains (hdrs.getD []) "Authorization")) then
    some (hInsert (hdrs.getD []) "Authorization" (tok.getD ""))
  else hdrs

/-- The plain (non-`FileUpload`) entries of the body, in order: the `data`
dict built by the partition loop in `_send`. -/
def partitionData (body : Option Body) : List (String × Json) :=
  (body.getD []).filterMap (fun p =>
    match p.2 with
    | .plain j => some (p.1, j)
    | .file _ => none)

/-- The file parts gathered from the `FileUpload` entries of the body, in
order: the `files` tuple built by the partition loop in `_send`. -/
def partitionFiles (body : Option Body) : List FilePart :=
  (body.getD []).flatMap (fun p =>
    match p.2 with
    | .plain _ => []
    | .file f => f.get p.1)

/-- The arguments `_send` passes to `self.http_client.request`. -/
structure EngineRequest where
  method : String
  url : String
  params : Option (List (String × String))
  headers : Option Headers
  json : Option Body
  data : Option (List (String × Json))
  files : Option (List FilePart)
  timeout : Nat

/-- Builds the `http_client.request` arguments from the client state, the
relative path and the request config, exactly as `_send` does: default the
method to GET, inject the auth header, build the url, and select multipart
(`data` + `files`, JSON body discarded) when at least one file part was
gathered, JSON (`json` alone) otherwise. -/
def engineArgs (c : Client) (path : String) (req : RequestConfig) : EngineRequest :=
  let method := req.method.getD "GET"
  let url := build_url c.base_url path
  let headers := dispatchHeaders c.auth_store.token req.headers
  let data := partitionData req.body
  let files := partitionFiles req.body
  if files.length > 0 then
    { method := method, url := url, params := req.params, headers := headers,
      json := none, data := some data, files := some files, timeout := c.timeout }
  else
    { method := method, url := url, params := req.params, headers := headers,
      json := req.body, data := none, files := none, timeout := c.timeout }

/-- A response from the HTTP engine: status code, final url, raw body bytes,
and the result of `response.json()` (`none` when the body is not valid
JSON — httpx is external, so JSON parsing of the raw bytes is an oracle). -/
structure Response where
  status : Nat
  url : String
  content : List Nat
  jsonBody : Option Json

/-- What one call of the external HTTP engine does: return a response, or
raise a transport-level exception carrying a message. -/
inductive EngineOutcome where
  | success (resp : Response)
  | failure (err : String)

/-- Modelled from the spec: `ClientResponseError` (in `pocketbase/errors`,
not under `src/`) "carries human-readable message, optional request URL,
optional HTTP status code, optional parsed response payload, and optional
wrapped original transport error". -/
structure ClientResponseError where
  message : String
  url : Option String := none
  status : Option Nat := none
  data : Option Json := none
  original_error : Option String := none

/-- The outcome of `Client._send` together with the heap effects the caller
can observe: the state of the caller's `req_config` (headers dict included)
after the call, and the auth store after the call. -/
structure DispatchResult where
  outcome : Except ClientResponseError Response
  config_after : RequestConfig
  auth_after : AuthStore

/-- `Client._send`: dispatch one request through the engine `eng`.  A
transport exception is wrapped into a `ClientResponseError` with the original
error and no url/status/data.  `config_after` reflects that
`config.update(req_config)` copies the outer dict but aliases the caller's
headers dict, which the auth injection then updates in place; `auth_after`
reflects that `_send` only reads the auth store. -/
def Client._send (c : Client) (path : String) (req : RequestConfig)
    (eng : EngineRequest → EngineOutcome) : DispatchResult :=
  { outcome :=
      match eng (engineArgs c path req) with
      | .success r => .ok r
      | .failure e =>
          .error { message := "General request error. Original error: " ++ e,
                   original_error := some e }
    config_after :=
      match req.headers with
      | none => req
      | some hs =>
          if tokTruthy c.auth_store.token && !(hContains hs "Authorization") then
            { req with headers := some (hInsert hs "Authorization" (c.auth_store.token.getD "")) }
          else req
    auth_after := c.auth_store }

/-- `Client.send_raw`: dispatch and return the raw response body bytes,
without looking at the status code. -/
def Client.send_raw (c : Client) (path : String) (req : RequestConfig)
    (eng : EngineRequest → EngineOutcome) : Except ClientResponseError (List Nat) :=
  match (c._send path req eng).outcome with
  | .error e => .error e
  | .ok resp => .ok resp.content

/-- `Client.send`: dispatch, parse the body as JSON (a parse failure just
yields an absent payload), raise a `ClientResponseError` with url, status and
payload when the status is `>= 400`, and return the payload otherwise. -/
def Client.send (c : Client) (path : String) (req : RequestConfig)
    (eng : EngineRequest → EngineOutcome) : Except ClientResponseError (Option Json) :=
  match (c._send path req eng).outcome with
  | .error e => .error e
  | .ok resp =>
      let data := resp.jsonBody
      if 400 ≤ resp.status then
        .error { message := "Response error. Status code:" ++ toString resp.status,
                 url := some resp.url, status := some resp.status, data := data }
      else .ok data

/-- Assoc-list lookup, modelling `self.record_service[id_or_name]`. -/
def lookupA : List (String × Nat) → String → Option Nat
  | [], _ => none
  | p :: rest, k => if p.1 == k then some p.2 else lookupA rest k

/-- `Client.collection`: on a cache miss construct a fresh `RecordService`
(a fresh allocation id) bound to the identifier and insert it; return the
cached instance and the updated client. -/
def Client.collection (c : Client) (id_or_name : String) : Nat × Client :=
  match lookupA c.record_service id_or_name with
  | some a => (a, c)
  | none =>
      (c.nextAlloc,
       { c with record_service := c.record_service ++ [(id_or_name, c.nextAlloc)],
                nextAlloc := c.nextAlloc + 1 })

/-- Well-formedness of the service cache: every cached allocation id is below
`nextAlloc` (so fresh constructions are really fresh) and no two cache
entries share an allocation id (distinct instances). -/
def cacheWF (c : Client) : Prop :=
  (∀ p ∈ c.record_service, p.2 < c.nextAlloc) ∧
  (c.record_service.map Prod.snd).Nodup


/-- Does the body mapping have at least one `FileUpload`-valued entry? -/
def hasFile (m : Body) : Bool :=
  m.any (fun p => match p.2 with | .file _ => true | .plain _ => false)

theorem engineArgs_headers (c : Client) (path : String) (req : RequestConfig) :
    (engineArgs c path req).headers = dispatchHeaders c.auth_store.token req.headers := by
  unfold engineArgs
  dsimp only
  split <;> rfl

theorem hInsert_of_not_contains (h : Headers) (k v : String) (hc : hContains h k = false) :
    hInsert h k v = h ++ [(k, v)] := by
  simp [hInsert, hc]

theorem hLookup_append_of_not_contains (h : Headers) (k v : String)
    (hc : hContains h k = false) : hLookup (h ++ [(k, v)]) k = some v := by
  induction h with
  | nil => simp [hLookup]
  | cons p rest ih =>
      simp only [hContains, List.any_cons, Bool.or_eq_false_iff] at hc
      simpa [hLookup, hc.1] using ih hc.2

/-- C6: on every base in `{"/", "http://h/", "http://h"}` and path in
`{"a", "/a"}`, `build_url` joins base and path with exactly one separating
slash (no duplicate or missing separator), keeps other internal slashes
(the `//` of the scheme stays), does not URL-encode, and never fails. -/
theorem build_url_single_separator :
    build_url "/" "a" = "/a" ∧ build_url "/" "/a" = "/a" ∧
    build_url "http://h/" "a" = "http://h/a" ∧ build_url "http://h/" "/a" = "http://h/a" ∧
    build_url "http://h" "a" = "http://h/a" ∧ build_url "http://h" "/a" = "http://h/a" := by
  refine ⟨?_, ?_, ?_, ?_, ?_, ?_⟩ <;> decide

/-- C10: when the auth store token is absent (`None`) or the empty string,
`_send` injects nothing: the headers passed to the HTTP engine are exactly
the caller-supplied headers, or absent when the caller supplied none. -/
theorem no_token_no_injection (c : Client) (path : String) (req : RequestConfig)
    (h : c.auth_store.token = none ∨ c.auth_store.token = some "") :
    (engineArgs c path req).headers = req.headers := by
  have ht : tokTruthy c.auth_store.token = false := by
    rcases h with h | h <;> simp [tokTruthy, h]
  rw [engineArgs_headers]
  simp [dispatchHeaders, ht]

theorem no_token_no_injection_witness :
    (engineArgs {} "p" { headers := some [("X-Custom", "1")] }).headers =
      some [("X-Custom", "1")] :=
  no_token_no_injection {} "p" { headers := some [("X-Custom", "1")] } (Or.inl rfl)

/-- C1: with a non-empty stored token, when the caller supplied no headers
dict or one without an `"Authorization"` key, the headers handed to the HTTP
engine map `"Authorization"` to the stored token verbatim (no `Bearer`
prefix, the caller's other entries kept); when the caller's headers already
hold an `"Authorization"` entry, they are passed through unchanged. -/
theorem auth_injection (c : Client) (path : String) (req : RequestConfig)
    (tok : String) (htok : c.auth_store.token = some tok) (hne : tok ≠ "") :
    (req.headers = none →
      (engineArgs c path req).headers = some [("Authorization", tok)]) ∧
    (∀ hs, req.headers = some hs → hContains hs "Authorization" = false →
      (engineArgs c path req).headers = some (hs ++ [("Authorization", tok)]) ∧
      hLookup (hs ++ [("Authorization", tok)]) "Authorization" = some tok) ∧
    (∀ hs, req.headers = some hs → hContains hs "Authorization" = true →
      (engineArgs c path req).headers = some hs) := by
  have ht : tokTruthy (some tok) = true := by
    simp [tokTruthy, hne]
  refine ⟨fun hn => ?_, fun hs hh hc => ⟨?_, ?_⟩, fun hs hh hc => ?_⟩
  · rw [engineArgs_headers, htok, hn]
    simp [dispatchHeaders, ht, hInsert, hContains]
  · rw [engineArgs_headers, htok, hh]
    simp [dispatchHeaders, ht, hc, hInsert_of_not_contains _ _ _ hc]
  · exact hLookup_append_of_not_contains hs "Authorization" tok hc
  · rw [engineArgs_headers, htok, hh]
    simp [dispatchHeaders, ht, hc]

theorem auth_injection_witness :
    (engineArgs { auth_store := { token := some "tok123" } } "p"
        { headers := some [("X-Custom", "1")] }).headers =
      some [("X-Custom", "1"), ("Authorization", "tok123")] ∧
    (engineArgs { auth_store := { token := some "tok123" } } "p"
        { headers := some [("Authorization", "mine")] }).headers =
      some [("Authorization", "mine")] :=
  ⟨((auth_injection { auth_store := { token := some "tok123" } } "p"
      { headers := some [("X-Custom", "1")] } "tok123" rfl (by decide)).2.1
      [("X-Custom", "1")] rfl (by decide)).1,
   (auth_injection { auth_store := { token := some "tok123" } } "p"
      { headers := some [("Authorization", "mine")] } "tok123" rfl (by decide)).2.2
      [("Authorization", "mine")] rfl (by decide)⟩

theorem partitionFiles_eq_nil (m : Body) (h : hasFile m = false) :
    partitionFiles (some m) = [] := by
  induction m with
  | nil => rfl
  | cons p rest ih =>
      simp only [hasFile, List.any_cons, Bool.or_eq_false_iff] at h
      obtain ⟨h1, h2⟩ := h
      obtain ⟨k, e⟩ := p
      cases e with
      | plain j => simpa [partitionFiles] using ih (by simpa [hasFile] using h2)
      | file f => simp at h1

theorem partitionFiles_length_pos (m : Body) (h : hasFile m = true) :
    0 < (partitionFiles (some m)).length := by
  induction m with
  | nil => simp [hasFile] at h
  | cons p rest ih =>
      obtain ⟨k, e⟩ := p
      cases e with
      | plain j =>
          have h2 : hasFile rest = true := by simpa [hasFile] using h
          simpa [partitionFiles] using ih h2
      | file f => simp [partitionFiles, FileUpload.get]

theorem mem_partitionData (m : Body) (k : String) (v : Json) :
    (k, v) ∈ partitionData (some m) ↔ (k, BodyEntry.plain v) ∈ m := by
  simp only [partitionData, Option.getD, List.mem_filterMap]
  constructor
  · rintro ⟨p, hp, he⟩
    obtain ⟨k2, e⟩ := p
    cases e with
    | plain j =>
        simp only [Option.some.injEq, Prod.mk.injEq] at he
        obtain ⟨hk, hv⟩ := he
        subst hk
        cases hv
        exact hp
    | file f => simp at he
  · intro hm
    exact ⟨(k, .plain v), hm, rfl⟩

theorem mem_partitionFiles (m : Body) (fp : FilePart) :
    fp ∈ partitionFiles (some m) ↔
      ∃ k f, (k, BodyEntry.file f) ∈ m ∧ fp ∈ FileUpload.get f k := by
  simp only [partitionFiles, Option.getD, List.mem_flatMap]
  constructor
  · rintro ⟨p, hp, hf⟩
    obtain ⟨k, e⟩ := p
    cases e with
    | plain j => simp at hf
    | file f => exact ⟨k, f, hp, hf⟩
  · rintro ⟨k, f, hm, hf⟩
    exact ⟨(k, .file f), hm, hf⟩

/-- C2: encoding selection.  A mapping body with at least one
`FileUpload`-valued entry produces a multipart request: the JSON body is
discarded, the form-data fields are exactly the non-`FileUpload` entries and
the file parts come exactly from the `FileUpload` entries.  A mapping body
with no `FileUpload` entry is transmitted as the JSON body with no multipart
data and no file parts.  An absent body yields neither JSON nor multipart
data nor file parts. -/
theorem encoding_selection (c : Client) (path : String) (req : RequestConfig) :
    (req.body = none →
      (engineArgs c path req).json = none ∧ (engineArgs c path req).data = none ∧
        (engineArgs c path req).files = none) ∧
    (∀ m, req.body = some m → hasFile m = true →
      (engineArgs c path req).json = none ∧
      (engineArgs c path req).data = some (partitionData (some m)) ∧
      (∀ k v, (k, v) ∈ partitionData (some m) ↔ (k, BodyEntry.plain v) ∈ m) ∧
      (engineArgs c path req).files = some (partitionFiles (some m)) ∧
      (∀ fp, fp ∈ partitionFiles (some m) ↔
        ∃ k f, (k, BodyEntry.file f) ∈ m ∧ fp ∈ FileUpload.get f k)) ∧
    (∀ m, req.body = some m → hasFile m = false →
      (engineArgs c path req).json = some m ∧ (engineArgs c path req).data = none ∧
        (engineArgs c path req).files = none) := by
  refine ⟨fun hn => ?_, fun m hb hf => ?_, fun m hb hf => ?_⟩
  · unfold engineArgs
    simp [hn, partitionFiles]
  · have hpos := partitionFiles_length_pos m hf
    unfold engineArgs
    simp only [hb]
    rw [if_pos (by simpa using hpos)]
    exact ⟨rfl, rfl, fun k v => mem_partitionData m k v, rfl,
      fun fp => mem_partitionFiles m fp⟩
  · have hnil := partitionFiles_eq_nil m hf
    unfold engineArgs
    simp only [hb]
    rw [if_neg (by simp [hnil])]
    exact ⟨rfl, rfl, rfl⟩

theorem encoding_selection_witness :
    (engineArgs {} "p"
        { body := some [("title", .plain (.str "t")),
                        ("doc", .file ⟨"f.txt", [104]⟩)] }).json = none ∧
    (engineArgs {} "p"
        { body := some [("title", .plain (.str "t")),
                        ("doc", .file ⟨"f.txt", [104]⟩)] }).data =
      some [("title", Json.str "t")] ∧
    (engineArgs {} "p"
        { body := some [("title", .plain (.str "t")),
                        ("doc", .file ⟨"f.txt", [104]⟩)] }).files =
      some [⟨"doc", "f.txt", [104]⟩] ∧
    (engineArgs {} "p" { body := some [("n", .plain (.num 1))] }).json =
      some [("n", BodyEntry.plain (.num 1))] ∧
    (engineArgs {} "p" { body := some [("n", .plain (.num 1))] }).files = none :=
  ⟨((encoding_selection {} "p"
        { body := some [("title", .plain (.str "t")),
                        ("doc", .file ⟨"f.txt", [104]⟩)] }).2.1
      [("title", .plain (.str "t")), ("doc", .file ⟨"f.txt", [104]⟩)]
      rfl (by decide)).1,
   ((encoding_selection {} "p"
        { body := some [("title", .plain (.str "t")),
                        ("doc", .file ⟨"f.txt", [104]⟩)] }).2.1
      [("title", .plain (.str "t")), ("doc", .file ⟨"f.txt", [104]⟩)]
      rfl (by decide)).2.1,
   ((encoding_selection {} "p"
        { body := some [("title", .plain (.str "t")),
                        ("doc", .file ⟨"f.txt", [104]⟩)] }).2.1
      [("title", .plain (.str "t")), ("doc", .file ⟨"f.txt", [104]⟩)]
      rfl (by decide)).2.2.2.1,
   ((encoding_selection {} "p" { body := some [("n", .plain (.num 1))] }).2.2
      [("n", .plain (.num 1))] rfl (by decide)).1,
   ((encoding_selection {} "p" { body := some [("n", .plain (.num 1))] }).2.2
      [("n", .plain (.num 1))] rfl (by decide)).2.2⟩

/-- C3: `send` on a response with status `>= 400` raises a
`ClientResponseError` whose message states the status code, whose url and
status fields are present and equal to the response's final url and status,
and whose data is the JSON-parsed body (`none` exactly when the body is not
valid JSON); on a status `< 400` it returns the parsed payload. -/
theorem send_status_check (c : Client) (path : String) (req : RequestConfig)
    (resp : Response) :
    (400 ≤ resp.status →
      c.send path req (fun _ => .success resp) =
        .error { message := "Response error. Status code:" ++ toString resp.status,
                 url := some resp.url, status := some resp.status,
                 data := resp.jsonBody, original_error := none }) ∧
    (resp.status < 400 →
      c.send path req (fun _ => .success resp) = .ok resp.jsonBody) := by
  constructor
  · intro h
    unfold Client.send Client._send
    simp [h]
  · intro h
    unfold Client.send Client._send
    simp [Nat.not_le.mpr h]

theorem send_status_check_witness :
    Client.send {} "p" {}
        (fun _ => .success ⟨404, "u", [], some (.obj [("message", .str "not found")])⟩) =
      .error { message := "Response error. Status code:" ++ toString 404,
               url := some "u", status := some 404,
               data := some (.obj [("message", .str "not found")]),
               original_error := none } ∧
    Client.send {} "p" {}
        (fun _ => .success ⟨200, "u", [], some (.obj [("id", .str "1")])⟩) =
      .ok (some (.obj [("id", .str "1")])) :=
  ⟨(send_status_check {} "p" {}
      ⟨404, "u", [], some (.obj [("message", .str "not found")])⟩).1 (by decide),
   (send_status_check {} "p" {}
      ⟨200, "u", [], some (.obj [("id", .str "1")])⟩).2 (by decide)⟩

/-- C4: when the HTTP engine raises a transport-level exception, `_send`
raises a `ClientResponseError` wrapping the original error (the wrapped
reference is present and the message names it) with no url, no status and no
data, and `send` / `send_raw` propagate exactly this error, without retry or
suppression. -/
theorem transport_error_wrapped (c : Client) (path : String) (req : RequestConfig)
    (eng : EngineRequest → EngineOutcome) (err : String)
    (h : eng (engineArgs c path req) = .failure err) :
    (c._send path req eng).outcome =
      .error { message := "General request error. Original error: " ++ err,
               url := none, status := none, data := none,
               original_error := some err } ∧
    c.send path req eng =
      .error { message := "General request error. Original error: " ++ err,
               url := none, status := none, data := none,
               original_error := some err } ∧
    c.send_raw path req eng =
      .error { message := "General request error. Original error: " ++ err,
               url := none, status := none, data := none,
               original_error := some err } := by
  refine ⟨?_, ?_, ?_⟩
  · unfold Client._send
    simp [h]
  · unfold Client.send Client._send
    simp [h]
  · unfold Client.send_raw Client._send
    simp [h]

theorem transport_error_wrapped_witness :
    Client.send {} "p" {} (fun _ => .failure "connection refused") =
      .error { message := "General request error. Original error: connection refused",
               url := none, status := none, data := none,
               original_error := some "connection refused" } :=
  (transport_error_wrapped {} "p" {} (fun _ => .failure "connection refused")
    "connection refused" rfl).2.1

/-- C5: a response body that is not valid JSON never makes `send` fail on
account of the decode failure itself: on a status `< 400` the call returns an
absent payload, and on a status `>= 400` the raised `ClientResponseError`
carries an absent payload — both statuses treat the decode failure the same
way, and no separate error kind exists for it. -/
theorem decode_failure_silent (c : Client) (path : String) (req : RequestConfig)
    (resp : Response) (hjson : resp.jsonBody = none) :
    (resp.status < 400 → c.send path req (fun _ => .success resp) = .ok none) ∧
    (400 ≤ resp.status →
      c.send path req (fun _ => .success resp) =
        .error { message := "Response error. Status code:" ++ toString resp.status,
                 url := some resp.url, status := some resp.status,
                 data := none, original_error := none }) := by
  constructor
  · intro h
    unfold Client.send Client._send
    simp [Nat.not_le.mpr h, hjson]
  · intro h
    unfold Client.send Client._send
    simp [h, hjson]

theorem decode_failure_silent_witness :
    Client.send {} "p" {} (fun _ => .success ⟨200, "u", [60], none⟩) = .ok none ∧
    Client.send {} "p" {} (fun _ => .success ⟨500, "u", [60], none⟩) =
      .error { message := "Response error. Status code:" ++ toString 500,
               url := some "u", status := some 500, data := none,
               original_error := none } :=
  ⟨(decode_failure_silent {} "p" {} ⟨200, "u", [60], none⟩ rfl).1 (by decide),
   (decode_failure_silent {} "p" {} ⟨500, "u", [60], none⟩ rfl).2 (by decide)⟩

/-- C9: `send_raw` returns the raw response body bytes unconditionally for
every response from the HTTP engine — the status code is not checked, so no
error is raised even for statuses `>= 400`. -/
theorem send_raw_unconditional (c : Client) (path : String) (req : RequestConfig)
    (resp : Response) :
    c.send_raw path req (fun _ => .success resp) = .ok resp.content := rfl

/-- C8 counterexample: with stored token `"t"` and a caller-supplied headers
dict `{"X-Custom": "1"}`, the caller's request config is NOT unchanged after
`_send`: `config.update(req_config)` copies the outer dict but aliases the
caller's headers dict, and the auth injection then updates that dict in
place, so the caller's headers gain the `Authorization` entry. -/
theorem send_mutates_caller_headers :
    (({ auth_store := { token := some "t" } } : Client)._send "p"
        { headers := some [("X-Custom", "1")] } (fun _ => .failure "e")).config_after ≠
      ({ headers := some [("X-Custom", "1")] } : RequestConfig) := by
  intro h
  exact absurd (congrArg RequestConfig.headers h) (by decide)

/-- C8 (amended): `_send` leaves the auth store unchanged, and the caller's
request config itself is never rebound; the caller's headers mapping is
unchanged whenever no injection happens (caller supplied no headers, the
token is falsy, or the caller already has an `Authorization` entry), but in
the one injecting case — truthy token and caller-supplied headers without
`Authorization` — the caller's headers mapping is mutated in place to
additionally hold `Authorization` mapped to the token. -/
theorem send_frame_effects (c : Client) (path : String) (req : RequestConfig)
    (eng : EngineRequest → EngineOutcome) :
    (c._send path req eng).auth_after = c.auth_store ∧
    (req.headers = none → (c._send path req eng).config_after = req) ∧
    (tokTruthy c.auth_store.token = false → (c._send path req eng).config_after = req) ∧
    (∀ hs, req.headers = some hs → hContains hs "Authorization" = true →
      (c._send path req eng).config_after = req) ∧
    (∀ hs, req.headers = some hs → hContains hs "Authorization" = false →
      tokTruthy c.auth_store.token = true →
      (c._send path req eng).config_after =
        { req with
          headers := some (hs ++ [("Authorization", c.auth_store.token.getD "")]) }) := by
  refine ⟨rfl, fun hn => ?_, fun ht => ?_, fun hs hh hc => ?_, fun hs hh hc ht => ?_⟩
  · simp [Client._send, hn]
  · cases hh : req.headers with
    | none => simp [Client._send, hh]
    | some hs => simp [Client._send, hh, ht]
  · simp [Client._send, hh, hc]
  · simp [Client._send, hh, hc, ht, hInsert_of_not_contains _ _ _ hc]

theorem send_frame_effects_witness :
    (({ auth_store := { token := some "t" } } : Client)._send "p"
        { headers := some [("X-Custom", "1")] } (fun _ => .failure "e")).auth_after =
      ({ token := some "t" } : AuthStore) ∧
    (({ auth_store := { token := some "t" } } : Client)._send "p"
        { headers := some [("X-Custom", "1")] } (fun _ => .failure "e")).config_after =
      ({ headers := some [("X-Custom", "1"), ("Authorization", "t")] } : RequestConfig) :=
  ⟨(send_frame_effects ({ auth_store := { token := some "t" } } : Client) "p"
      { headers := some [("X-Custom", "1")] } (fun _ => .failure "e")).1,
   (send_frame_effects ({ auth_store := { token := some "t" } } : Client) "p"
      { headers := some [("X-Custom", "1")] } (fun _ => .failure "e")).2.2.2.2
     [("X-Custom", "1")] rfl (by decide) (by decide)⟩

theorem lookupA_mem (m : List (String × Nat)) (k : String) (a : Nat)
    (h : lookupA m k = some a) : (k, a) ∈ m := by
  induction m with
  | nil => simp [lookupA] at h
  | cons p rest ih =>
      by_cases hpk : p.1 == k
      · simp only [lookupA, hpk, if_pos] at h
        have hk : p.1 = k := by simpa using hpk
        cases h
        subst hk
        exact List.mem_cons_self p rest
      · simp only [lookupA, hpk, if_neg, Bool.false_eq_true, not_false_iff] at h
        exact List.mem_cons_of_mem p (ih h)

theorem lookupA_append_some (m l : List (String × Nat)) (k : String) (a : Nat)
    (h : lookupA m k = some a) : lookupA (m ++ l) k = some a := by
  induction m with
  | nil => simp [lookupA] at h
  | cons p rest ih =>
      by_cases hpk : p.1 == k
      · simp only [lookupA, hpk, if_pos] at h
        simpa [lookupA, hpk] using h
      · simp only [List.cons_append, lookupA, hpk, if_neg, Bool.false_eq_true,
          not_false_iff] at h ⊢
        exact ih h

theorem lookupA_append_fresh (m : List (String × Nat)) (k : String) (v : Nat)
    (h : lookupA m k = none) : lookupA (m ++ [(k, v)]) k = some v := by
  induction m with
  | nil => simp [lookupA]
  | cons p rest ih =>
      by_cases hpk : p.1 == k
      · simp [lookupA, hpk] at h
      · simp only [List.cons_append, lookupA, hpk, if_neg, Bool.false_eq_true,
          not_false_iff] at h ⊢
        exact ih h

theorem collection_hit (d : Client) (i : String) (a : Nat)
    (h : lookupA d.record_service i = some a) : d.collection i = (a, d) := by
  unfold Client.collection
  rw [h]

theorem collection_miss (d : Client) (i : String)
    (h : lookupA d.record_service i = none) :
    d.collection i =
      (d.nextAlloc,
       { d with
         record_service := d.record_service ++ [(i, d.nextAlloc)],
         nextAlloc := d.nextAlloc + 1 }) := by
  unfold Client.collection
  rw [h]

theorem collection_lookup_self (c : Client) (i : String) :
    lookupA ((c.collection i).2).record_service i = some (c.collection i).1 := by
  cases hl : lookupA c.record_service i with
  | some a => rw [collection_hit c i a hl]; exact hl
  | none => rw [collection_miss c i hl]; exact lookupA_append_fresh _ _ _ hl

theorem collection_preserves_WF (c : Client) (i : String) (hwf : cacheWF c) :
    cacheWF (c.collection i).2 := by
  unfold cacheWF at hwf ⊢
  obtain ⟨hb, hn⟩ := hwf
  cases hl : lookupA c.record_service i with
  | some a =>
      rw [collection_hit c i a hl]
      exact ⟨hb, hn⟩
  | none =>
      rw [collection_miss c i hl]
      refine ⟨?_, ?_⟩
      · intro p hp
        simp only [List.mem_append, List.mem_singleton] at hp
        rcases hp with hp | hp
        · exact Nat.lt_succ_of_lt (hb p hp)
        · rw [hp]
          exact Nat.lt_succ_self _
      · simp only [List.map_append, List.map_cons, List.map_nil]
        rw [List.nodup_append]
        refine ⟨hn, List.nodup_singleton _, ?_⟩
        intro a ha hmem
        simp only [List.mem_singleton] at hmem
        subst hmem
        obtain ⟨p, hp, hpa⟩ := List.mem_map.mp ha
        exact absurd (hpa ▸ hb p hp) (Nat.lt_irrefl _)

theorem collection_monotone_lookup (c : Client) (i k : String) (a : Nat)
    (h : lookupA c.record_service k = some a) :
    lookupA ((c.collection i).2).record_service k = some a := by
  cases hl : lookupA c.record_service i with
  | some b => rw [collection_hit c i b hl]; exact h
  | none =>
      rw [collection_miss c i hl]
      exact lookupA_append_some _ _ _ _ h

/-- C7: on a well-formed cache, a repeated `collection` call with the same
identifier returns the identical `RecordService` instance (the same
allocation id, modelling Python object identity) and leaves the client
unchanged; a call with a distinct identifier returns a distinct instance;
and the cache only grows — every previously cached entry survives a
`collection` call unchanged, and well-formedness is preserved. -/
theorem collection_cache (c : Client) (id1 id2 : String) (hwf : cacheWF c)
    (hne : id1 ≠ id2) :
    ((c.collection id1).2.collection id1).1 = (c.collection id1).1 ∧
    ((c.collection id1).2.collection id1).2 = (c.collection id1).2 ∧
    ((c.collection id1).2.collection id2).1 ≠ (c.collection id1).1 ∧
    (∀ k a, lookupA c.record_service k = some a →
      lookupA ((c.collection id1).2).record_service k = some a) ∧
    cacheWF (c.collection id1).2 := by
  have hwf1 : cacheWF (c.collection id1).2 := collection_preserves_WF c id1 hwf
  have hl1 : lookupA ((c.collection id1).2).record_service id1 =
      some (c.collection id1).1 := collection_lookup_self c id1
  have hmem1 : (id1, (c.collection id1).1) ∈ ((c.collection id1).2).record_service :=
    lookupA_mem _ _ _ hl1
  have hrep : (c.collection id1).2.collection id1 =
      ((c.collection id1).1, (c.collection id1).2) :=
    collection_hit ((c.collection id1).2) id1 ((c.collection id1).1) hl1
  unfold cacheWF at hwf1
  obtain ⟨hb1, hn1⟩ := hwf1
  refine ⟨?_, ?_, ?_, fun k a h => collection_monotone_lookup c id1 k a h,
    collection_preserves_WF c id1 hwf⟩
  · rw [hrep]
  · rw [hrep]
  · intro heq
    cases hl2 : lookupA ((c.collection id1).2).record_service id2 with
    | some b =>
        rw [collection_hit ((c.collection id1).2) id2 b hl2] at heq
        have heq2 : b = (c.collection id1).1 := heq
        have hmem2 : (id2, (c.collection id1).1) ∈
            ((c.collection id1).2).record_service := by
          rw [← heq2]
          exact lookupA_mem _ _ _ hl2
        have hpair : (id1, (c.collection id1).1) = (id2, (c.collection id1).1) :=
          List.inj_on_of_nodup_map hn1 hmem1 hmem2 rfl
        exact hne (congrArg Prod.fst hpair)
    | none =>
        rw [collection_miss ((c.collection id1).2) id2 hl2] at heq
        have heq2 : ((c.collection id1).2).nextAlloc = (c.collection id1).1 := heq
        have hlt := hb1 _ hmem1
        rw [heq2] at hlt
        exact Nat.lt_irrefl _ hlt

theorem collection_cache_witness :
    ((({} : Client).collection "posts").2.collection "posts").1 =
      (({} : Client).collection "posts").1 ∧
    ((({} : Client).collection "posts").2.collection "comments").1 ≠
      (({} : Client).collection "posts").1 :=
  ⟨(collection_cache {} "posts" "comments"
      (by unfold cacheWF; exact ⟨fun p hp => absurd hp (List.not_mem_nil p),
        List.nodup_nil⟩) (by decide)).1,
   (collection_cache {} "posts" "comments"
      (by unfold cacheWF; exact ⟨fun p hp => absurd hp (List.not_mem_nil p),
        List.nodup_nil⟩) (by decide)).2.2.1⟩

end PocketBase
